import Mathlib

/-!
Verification of the audio re-chunking and WAV-encoding pipeline of
`src/audioSplitter.ts` (functions `splitAudioFile`, `audioBufferToWav`,
`processAndSplitAudio`).

The embedding follows the TypeScript source line by line:
* normalized float samples are modelled as rationals (`ℚ`); the JavaScript
  real-arithmetic operations (`Math.floor`, `Math.ceil`, `Math.min`,
  `Math.max`, `*`, `/`) are the corresponding exact operations on `ℚ`;
* `DataView.setUint16` / `setUint32` / `setInt16` are modelled by their
  ECMAScript semantics: the value is converted with truncation toward zero
  and written modulo 2^16 / 2^32 in little-endian byte order;
* an `AudioBuffer` is its record of channel count, frame length, sample
  rate and per-channel sample data;
* the `onProgress` callback is modelled by collecting the reported message
  strings in a list, in call order;
* `processAndSplitAudio` returns the emitted chunk list together with that
  message list (decoding is performed by the external platform decoder, so
  the embedded function starts from the decoded buffer).
-/

namespace AudioSplitterModel

/-- Little-endian bytes written by `DataView.setUint16` (value taken mod 2^16). -/
def uint16LE (v : ℕ) : List ℕ := [v % 256, v / 256 % 256]

/-- Little-endian bytes written by `DataView.setUint32` (value taken mod 2^32). -/
def uint32LE (v : ℕ) : List ℕ :=
  [v % 256, v / 256 % 256, v / 65536 % 256, v / 16777216 % 256]

/-- ECMAScript `ToIntegerOrInfinity` on a finite number: truncation toward zero. -/
def jsTruncQ (q : ℚ) : ℤ := if q < 0 then -⌊-q⌋ else ⌊q⌋

/-- ECMAScript `ToInt16`: reduce an integer modulo 2^16 into [-2^15, 2^15). -/
def toInt16 (n : ℤ) : ℤ := (n + 32768) % 65536 - 32768

/-- The two little-endian bytes stored by `DataView.setInt16` for an integer. -/
def int16ToBytes (n : ℤ) : List ℕ := uint16LE ((n % 65536).toNat)

/-- Decoded audio data as produced by `decodeAudioData`: the fields of a Web
Audio `AudioBuffer` used by the source. `data c i` is sample `i` of channel
`c` (`getChannelData(c)[i]`); only indices `c < numberOfChannels`,
`i < length` are ever read. -/
structure AudioBuffer where
  numberOfChannels : ℕ
  length : ℕ
  sampleRate : ℕ
  data : ℕ → ℕ → ℚ

/-- The Web Audio `AudioBuffer.duration` attribute, `length / sampleRate`,
taken in exact rational arithmetic (the idealization used by the
exact-arithmetic chunker model; the binary64 value the host actually
stores is `durationFP` below). -/
def AudioBuffer.duration (b : AudioBuffer) : ℚ := (b.length : ℚ) / (b.sampleRate : ℚ)

/-- The per-sample quantization performed inside the PCM loop of
`audioBufferToWav` (src/audioSplitter.ts lines 157-162):
clamp to [-1, 1], scale by 0x8000 for negative and 0x7FFF for non-negative
values, then store with `setInt16` (truncate toward zero, wrap mod 2^16). -/
def quantize (sample : ℚ) : ℤ :=
  let clampedSample := max (-1) (min 1 sample)
  let intSample : ℚ := if clampedSample < 0 then clampedSample * 32768
    else clampedSample * 32767
  toInt16 (jsTruncQ intSample)

/-- The 44-byte WAV header written by `audioBufferToWav` for the given
channel count, sample rate and data size (lines 134-151 of the source). -/
def wavHeader (numChannels sampleRate dataSize : ℕ) : List ℕ :=
  [82, 73, 70, 70]                      -- "RIFF"
  ++ uint32LE (36 + dataSize)
  ++ [87, 65, 86, 69]                   -- "WAVE"
  ++ [102, 109, 116, 32]                -- "fmt "
  ++ uint32LE 16
  ++ uint16LE 1
  ++ uint16LE numChannels
  ++ uint32LE sampleRate
  ++ uint32LE (sampleRate * (numChannels * 2))  -- byteRate
  ++ uint16LE (numChannels * 2)                 -- blockAlign
  ++ uint16LE 16                                -- bitDepth
  ++ [100, 97, 116, 97]                 -- "data"
  ++ uint32LE dataSize

/-- The interleaved PCM payload of `audioBufferToWav` (lines 153-165):
frame-major, channel-minor, two bytes per sample. -/
def wavData (buffer : AudioBuffer) : List ℕ :=
  (List.range buffer.length).flatMap fun i =>
    (List.range buffer.numberOfChannels).flatMap fun channel =>
      int16ToBytes (quantize (buffer.data channel i))

/-- The function `audioBufferToWav` (src/audioSplitter.ts lines 110-168): the byte
content of the returned `Blob`. `dataSize = numSamples * numChannels * 2`. -/
def audioBufferToWav (buffer : AudioBuffer) : List ℕ :=
  wavHeader buffer.numberOfChannels buffer.sampleRate
      (buffer.length * buffer.numberOfChannels * 2)
  ++ wavData buffer

/-- The count `totalChunks = Math.ceil(totalDuration / chunkDurationInSeconds)`
(line 195), with the quotient taken in exact rational arithmetic
(binary64 counterpart: `totalChunksFP` below). -/
def totalChunksOf (decodedBuffer : AudioBuffer) (chunkDurationInSeconds : ℚ) : ℕ :=
  ⌈decodedBuffer.duration / chunkDurationInSeconds⌉.toNat

/-- The window computation of one loop iteration of `processAndSplitAudio`
(lines 205-214): start/end times, the `endTime <= startTime` skip, the
frame offsets, and the `frameCount <= 0` skip. Returns the frame window
`(startOffset, endOffset)` of the chunk emitted for index `i`, or `none`
when the iteration `continue`s. The arithmetic is taken over exact
rationals (the idealization of the JS doubles; the faithful binary64
counterpart is `windowAtFP` below, and the two can differ — see the C1
counterexample). -/
def windowAt (decodedBuffer : AudioBuffer) (chunkDurationInSeconds : ℚ) (i : ℕ) :
    Option (ℤ × ℤ) :=
  let startTime : ℚ := i * chunkDurationInSeconds
  let endTime : ℚ := min (startTime + chunkDurationInSeconds) decodedBuffer.duration
  if endTime ≤ startTime then none
  else
    let startOffset : ℤ := ⌊startTime * decodedBuffer.sampleRate⌋
    let endOffset : ℤ := ⌊endTime * decodedBuffer.sampleRate⌋
    if endOffset - startOffset ≤ 0 then none
    else some (startOffset, endOffset)

/-- The frame windows of the chunks actually emitted by the loop of
`processAndSplitAudio`, in emission order. -/
def emittedWindows (decodedBuffer : AudioBuffer) (chunkDurationInSeconds : ℚ) :
    List (ℤ × ℤ) :=
  (List.range (totalChunksOf decodedBuffer chunkDurationInSeconds)).filterMap
    (windowAt decodedBuffer chunkDurationInSeconds)

/-- Model of `audioContext.createBuffer` and the per-channel `subarray`/`set` copy
(lines 217-228): the chunk buffer holding frames `w.1 ≤ f < w.2` of the
decoded buffer. This covers the successful path only: `createBuffer`
throws `NotSupportedError` on arguments outside its nominal ranges, which
is modelled separately by `createBufferMustThrow` /
`processAndSplitAudioFails` below. -/
def sliceBuffer (decodedBuffer : AudioBuffer) (w : ℤ × ℤ) : AudioBuffer where
  numberOfChannels := decodedBuffer.numberOfChannels
  length := (w.2 - w.1).toNat
  sampleRate := decodedBuffer.sampleRate
  data := fun channel j => decodedBuffer.data channel (w.1.toNat + j)

/-- JavaScript `str.lastIndexOf('.')` on the character list of a string:
the greatest index holding `'.'`, or `-1` if there is none. -/
def lastIndexOfDot (cs : List Char) : ℤ :=
  match cs.reverse.findIdx? (fun ch => ch = '.') with
  | some k => (cs.length : ℤ) - 1 - k
  | none => -1

/-- The base name `file.name.substring(0, file.name.lastIndexOf('.')) || file.name`
(line 233): drop everything from the last dot on; an empty result (no dot,
or the dot at index 0) is falsy, so the whole name is used instead. -/
def originalFileName (fileName : String) : String :=
  let cs := fileName.toList
  let sub := String.mk (cs.take (lastIndexOfDot cs).toNat)
  if sub = "" then fileName else sub

/-- JavaScript `String(n).padStart(2, '0')`. -/
def padStart2 (n : ℕ) : String :=
  let s := Nat.repr n
  String.mk (List.replicate (2 - s.length) '0') ++ s

/-- The chunk filename built at line 236:
`` `${originalFileName}_parte_${String(chunkNumber).padStart(2, '0')}.wav` ``. -/
def chunkName (fileName : String) (chunkNumber : ℕ) : String :=
  originalFileName fileName ++ "_parte_" ++ padStart2 chunkNumber ++ ".wav"

/-- The initial progress message of `processAndSplitAudio` (line 184). -/
def decodingMessage : String := "Decodificando el archivo..."

/-- The per-iteration progress message of `processAndSplitAudio`
(line 199): `` `Procesando trozo ${chunkNumber} de ${totalChunks}...` ``. -/
def progressMessage (chunkNumber total : ℕ) : String :=
  "Procesando trozo " ++ Nat.repr chunkNumber ++ " de " ++ Nat.repr total ++ "..."

/-- One emitted chunk: the `{ name, blob }` record pushed at line 235. -/
structure EncodedChunk where
  name : String
  blob : List ℕ

/-- The function `processAndSplitAudio` (src/audioSplitter.ts lines 179-243), starting
from the decoded buffer. The first component is the list of emitted chunks
(in order); the second is the list of messages passed to `onProgress` (in
call order: the decoding message, then one message per loop index —
the message at line 199 is issued before the two skip checks). This is
the pure model of the runs in which `createBuffer` does not throw; the
condition under which a run instead aborts with `NotSupportedError` is
`processAndSplitAudioFails` below. -/
def processAndSplitAudio (fileName : String) (decodedBuffer : AudioBuffer)
    (chunkDurationInSeconds : ℚ) : List EncodedChunk × List String :=
  let total := totalChunksOf decodedBuffer chunkDurationInSeconds
  let chunks := (List.range total).filterMap fun i =>
    (windowAt decodedBuffer chunkDurationInSeconds i).map fun w =>
      { name := chunkName fileName (i + 1),
        blob := audioBufferToWav (sliceBuffer decodedBuffer w) : EncodedChunk }
  let messages := decodingMessage ::
    (List.range total).map fun i => progressMessage (i + 1) total
  (chunks, messages)

/-- The loop of `splitAudioFile` (src/audioSplitter.ts lines 17-23) on the
byte content of the file. `fuel` bounds the number of iterations (each
iteration advances `start` by at least one byte when `chunkSizeInBytes > 0`,
so `fileBytes.length` iterations always suffice; the `0 < chunkSizeInBytes`
test is part of the guard because the source loop does not terminate on a
non-positive chunk size). `file.slice(start, end)` is
`(drop start).take (end - start)`. -/
def splitLoop (fileBytes : List ℕ) (chunkSizeInBytes : ℕ) :
    ℕ → ℕ → List (List ℕ)
  | 0, _ => []
  | fuel + 1, start =>
    if start < fileBytes.length ∧ 0 < chunkSizeInBytes then
      let e := min (start + chunkSizeInBytes) fileBytes.length
      ((fileBytes.drop start).take (e - start)) ::
        splitLoop fileBytes chunkSizeInBytes fuel e
    else []

/-- The function `splitAudioFile` (src/audioSplitter.ts lines 8-26) on byte contents:
a file no larger than the chunk size is returned whole as the single
element; otherwise the file is sliced into consecutive ranges of size
`chunkSizeInBytes` (the last possibly shorter). -/
def splitAudioFile (fileBytes : List ℕ) (chunkSizeInBytes : ℕ) : List (List ℕ) :=
  if fileBytes.length ≤ chunkSizeInBytes then [fileBytes]
  else splitLoop fileBytes chunkSizeInBytes fileBytes.length 0

/-- The quantization rule as worded by the spec (§4.3): clamp, scale
asymmetrically, and **round to the nearest integer**. Kept separate from
`quantize` (the rule the source implements) so the two can be compared. -/
def quantizeSpecRounded (sample : ℚ) : ℤ :=
  let clamped := max (-1) (min 1 sample)
  if clamped < 0 then round (clamped * 32768) else round (clamped * 32767)

/-- Read back the little-endian 16-bit unsigned value stored at byte
offset `off` of a byte list (used to state the header-layout claims). -/
def readU16 (bs : List ℕ) (off : ℕ) : ℕ :=
  bs.getD off 0 + 256 * bs.getD (off + 1) 0

/-- Read back the little-endian 32-bit unsigned value stored at byte
offset `off` of a byte list. -/
def readU32 (bs : List ℕ) (off : ℕ) : ℕ :=
  bs.getD off 0 + 256 * bs.getD (off + 1) 0 + 65536 * bs.getD (off + 2) 0 +
    16777216 * bs.getD (off + 3) 0

/-- A single-channel, 1-second, 44100 Hz buffer of all-zero samples. -/
def oneSecondZeroBuffer : AudioBuffer := ⟨1, 44100, 44100, fun _ _ => 0⟩

/-- A 2-channel buffer with two frames of distinct samples, used to witness
the interleaving layout. -/
def twoChannelBuffer : AudioBuffer := ⟨2, 2, 8000, fun channel i => channel + 2 * i⟩

/-- A 10-second mono 8000 Hz all-zero buffer (the §8 chunking example). -/
def tenSecondMonoBuffer : AudioBuffer := ⟨1, 80000, 8000, fun _ _ => 0⟩

/-- A 1-frame mono 1 Hz buffer: with `chunkDurationSeconds = 3/10` its
first three loop indices produce degenerate (zero-frame) windows. -/
def oneFrameBuffer : AudioBuffer := ⟨1, 1, 1, fun _ _ => 0⟩

/-- A buffer with zero channels but one second of frame metadata at a
valid 44100 Hz sample rate. -/
def zeroChannelBuffer : AudioBuffer := ⟨0, 44100, 44100, fun _ _ => 0⟩

/-- A buffer with zero frames (zero total duration). -/
def emptyFramesBuffer : AudioBuffer := ⟨1, 0, 44100, fun _ _ => 0⟩

/-- Closed form of the frame boundaries of `processAndSplitAudio`: for
index `i ≤ totalChunks`, `boundary b d i` is the frame offset
`Math.floor(min(i*d, totalDuration) * sampleRate)`; window `i` of the
loop runs from `boundary b d i` to `boundary b d (i+1)` (proved below). -/
def boundary (decodedBuffer : AudioBuffer) (chunkDurationInSeconds : ℚ) (i : ℕ) : ℤ :=
  ⌊min ((i : ℚ) * chunkDurationInSeconds) decodedBuffer.duration *
    (decodedBuffer.sampleRate : ℚ)⌋

/-- Argument validation of `audioContext.createBuffer(numberOfChannels,
frameCount, sampleRate)` (line 217): per the Web Audio API, every
conforming implementation throws `NotSupportedError` when the channel
count is outside [1, 32] or the frame count is zero (supported sample-rate
bounds are implementation-defined and are not modelled). -/
def createBufferMustThrow (numberOfChannels frameCount : ℕ) : Prop :=
  numberOfChannels = 0 ∨ 32 < numberOfChannels ∨ frameCount = 0

/-- The run of `processAndSplitAudio` aborts with an error: some loop
index passes both skip guards and reaches `createBuffer` (line 217) with
arguments every conforming implementation rejects; the thrown
`NotSupportedError` rejects the promise and no chunk list is returned. -/
def processAndSplitAudioFails (decodedBuffer : AudioBuffer)
    (chunkDurationInSeconds : ℚ) : Prop :=
  ∃ i, i < totalChunksOf decodedBuffer chunkDurationInSeconds ∧
    ∃ w, windowAt decodedBuffer chunkDurationInSeconds i = some w ∧
      createBufferMustThrow decodedBuffer.numberOfChannels (w.2 - w.1).toNat

/-- Round half to even to an integer: the IEEE-754 default rounding of a
real halfway between integers. -/
def rne (q : ℚ) : ℤ :=
  if q - ⌊q⌋ < 1 / 2 then ⌊q⌋
  else if (1 : ℚ) / 2 < q - ⌊q⌋ then ⌊q⌋ + 1
  else if 2 ∣ ⌊q⌋ then ⌊q⌋ else ⌊q⌋ + 1

/-- Binary64 rounding of a positive rational: round the 53-bit significand
to nearest, ties to even. -/
def flPos (q : ℚ) : ℚ :=
  (rne (q * (2 : ℚ) ^ ((52 : ℤ) - Int.log 2 q)) : ℚ) * (2 : ℚ) ^ (Int.log 2 q - 52)

/-- IEEE-754 binary64 rounding (round to nearest, ties to even) of an
exact rational: the value JavaScript stores for the real result of an
arithmetic operation. Faithful on the normal finite range; overflow and
subnormals, which do not occur in the traces below, are not modelled. -/
def fl (q : ℚ) : ℚ :=
  if q < 0 then -flPos (-q) else if q = 0 then 0 else flPos q

/-- `decodedBuffer.duration` as the host actually computes it: the
binary64 quotient `length / sampleRate`. -/
def durationFP (decodedBuffer : AudioBuffer) : ℚ :=
  fl ((decodedBuffer.length : ℚ) / (decodedBuffer.sampleRate : ℚ))

/-- `totalChunks` (line 195) under binary64 arithmetic:
`Math.ceil` of the double quotient `totalDuration / chunkDurationInSeconds`. -/
def totalChunksFP (decodedBuffer : AudioBuffer) (chunkDurationInSeconds : ℚ) : ℕ :=
  ⌈fl (durationFP decodedBuffer / chunkDurationInSeconds)⌉.toNat

/-- `windowAt` (lines 205-214) with the source's binary64 rounding made
explicit at every arithmetic step (`Math.min`, `Math.floor` and the
`ℕ → double` conversions are exact). -/
def windowAtFP (decodedBuffer : AudioBuffer) (chunkDurationInSeconds : ℚ) (i : ℕ) :
    Option (ℤ × ℤ) :=
  let startTime : ℚ := fl ((i : ℚ) * chunkDurationInSeconds)
  let endTime : ℚ :=
    min (fl (startTime + chunkDurationInSeconds)) (durationFP decodedBuffer)
  if endTime ≤ startTime then none
  else
    let startOffset : ℤ := ⌊fl (startTime * decodedBuffer.sampleRate)⌋
    let endOffset : ℤ := ⌊fl (endTime * decodedBuffer.sampleRate)⌋
    if endOffset - startOffset ≤ 0 then none
    else some (startOffset, endOffset)

/-- The frame windows of the emitted chunks under binary64 arithmetic. -/
def emittedWindowsFP (decodedBuffer : AudioBuffer) (chunkDurationInSeconds : ℚ) :
    List (ℤ × ℤ) :=
  (List.range (totalChunksFP decodedBuffer chunkDurationInSeconds)).filterMap
    (windowAtFP decodedBuffer chunkDurationInSeconds)

/-- A mono 44100 Hz buffer of 1000002 frames (an ordinary input of about
22.7 seconds) on which binary64 rounding makes
`Math.floor(duration * sampleRate)` land below the frame count. -/
def floatEdgeBuffer : AudioBuffer := ⟨1, 1000002, 44100, fun _ _ => 0⟩

/-! ### Quantization lemmas -/

theorem toInt16_eq_self {n : ℤ} (h1 : -32768 ≤ n) (h2 : n ≤ 32767) : toInt16 n = n := by
  unfold toInt16
  omega

theorem jsTruncQ_nonneg {q : ℚ} (h : 0 ≤ q) : jsTruncQ q = ⌊q⌋ := by
  unfold jsTruncQ
  rw [if_neg (not_lt.mpr h)]

/-- C2 (amended): for every float sample `s`, the WAV encoder quantizes it
by clamping `s` to [-1, 1] and then **truncating toward zero** (not
rounding to nearest) the product with 32768 (clamped value negative) or
32767 (otherwise); the 16-bit store never wraps, and the result always
lies in the signed 16-bit range [-32768, 32767]. -/
theorem quantize_truncates_and_never_overflows (sample : ℚ) :
    quantize sample =
      jsTruncQ (if max (-1) (min 1 sample) < 0 then max (-1) (min 1 sample) * 32768
        else max (-1) (min 1 sample) * 32767) ∧
    -32768 ≤ quantize sample ∧ quantize sample ≤ 32767 := by
  have hlb : (-1 : ℚ) ≤ max (-1) (min 1 sample) := le_max_left _ _
  have hub : max (-1) (min 1 sample) ≤ 1 := by
    rcases le_total (min 1 sample) (-1) with h | h
    · rw [max_eq_left h]; norm_num
    · rw [max_eq_right h]; exact min_le_left _ _
  set c := max (-1) (min 1 sample) with hc
  have key : -32768 ≤ jsTruncQ (if c < 0 then c * 32768 else c * 32767) ∧
      jsTruncQ (if c < 0 then c * 32768 else c * 32767) ≤ 32767 := by
    by_cases h : c < 0
    · rw [if_pos h]
      unfold jsTruncQ
      rw [if_pos (by nlinarith)]
      constructor
      · have : ⌊-(c * 32768)⌋ ≤ 32768 := by
          have : -(c * 32768) ≤ 32768 := by nlinarith
          calc ⌊-(c * 32768)⌋ ≤ ⌊(32768 : ℚ)⌋ := Int.floor_mono this
            _ = 32768 := by norm_num
        omega
      · have : (0 : ℤ) ≤ ⌊-(c * 32768)⌋ := Int.floor_nonneg.mpr (by nlinarith)
        omega
    · rw [if_neg h]
      push_neg at h
      rw [jsTruncQ_nonneg (by nlinarith)]
      constructor
      · have : (0 : ℤ) ≤ ⌊c * 32767⌋ := Int.floor_nonneg.mpr (by nlinarith)
        omega
      · calc ⌊c * 32767⌋ ≤ ⌊(32767 : ℚ)⌋ := Int.floor_mono (by nlinarith)
          _ = 32767 := by norm_num
  have heq : quantize sample = jsTruncQ (if c < 0 then c * 32768 else c * 32767) := by
    unfold quantize
    rw [← hc]
    exact toInt16_eq_self key.1 key.2
  exact ⟨heq, heq ▸ key.1, heq ▸ key.2⟩

/-- C2, as stated, fails at the sample `1/2`: the source truncates
`0.5 × 32767 = 16383.5` toward zero and stores `16383`, while rounding to
the nearest integer would give `16384`. -/
theorem quantize_half_ne_round : quantize (1 / 2) = 16383 ∧
    quantizeSpecRounded (1 / 2) = 16384 ∧
    quantize (1 / 2) ≠ quantizeSpecRounded (1 / 2) := by
  have hmin : min (1 : ℚ) (1 / 2) = 1 / 2 := by norm_num [min_def]
  have hmax : max (-1 : ℚ) (1 / 2) = 1 / 2 := by norm_num [max_def]
  have hfloor : ⌊(1 / 2 : ℚ) * 32767⌋ = 16383 := by
    rw [Int.floor_eq_iff]
    norm_num
  have h1 : quantize (1 / 2) = 16383 := by
    simp only [quantize, jsTruncQ, toInt16, hmin, hmax]
    rw [if_neg (by norm_num : ¬((1 / 2 : ℚ) < 0)),
      if_neg (by norm_num : ¬((1 / 2 : ℚ) * 32767 < 0)), hfloor]
    decide
  have h2 : quantizeSpecRounded (1 / 2) = 16384 := by
    unfold quantizeSpecRounded
    rw [hmin, hmax, if_neg (by norm_num), round_eq]
    rw [show (1 / 2 : ℚ) * 32767 + 1 / 2 = 16384 by norm_num]
    norm_num
  exact ⟨h1, h2, by rw [h1, h2]; decide⟩


/-- Witness for C2 (amended) at the concrete sample `1/2`. -/
theorem quantize_truncates_and_never_overflows_witness :
    quantize (1 / 2) =
      jsTruncQ (if max (-1) (min 1 (1 / 2 : ℚ)) < 0 then max (-1) (min 1 (1 / 2 : ℚ)) * 32768
        else max (-1) (min 1 (1 / 2 : ℚ)) * 32767) ∧
    -32768 ≤ quantize (1 / 2) ∧ quantize (1 / 2) ≤ 32767 :=
  quantize_truncates_and_never_overflows (1 / 2)

/-- C8: at the quantization boundaries, `1.0` encodes to `32767`, `-1.0`
encodes to `-32768`, and the out-of-range `1.5` clamps to the same 16-bit
value as `1.0`. -/
theorem quantize_boundary_values : quantize 1 = 32767 ∧ quantize (-1) = -32768 ∧
    quantize (3 / 2) = quantize 1 := by
  have h1 : quantize 1 = 32767 := by
    simp only [quantize, jsTruncQ, toInt16, min_self,
      max_eq_right (by norm_num : (-1 : ℚ) ≤ 1)]
    rw [if_neg (by norm_num : ¬((1 : ℚ) < 0)),
      if_neg (by norm_num : ¬((1 : ℚ) * 32767 < 0)),
      show ⌊(1 : ℚ) * 32767⌋ = 32767 by norm_num]
    decide
  have hneg : quantize (-1) = -32768 := by
    simp only [quantize, jsTruncQ, toInt16, min_eq_right (by norm_num : (-1 : ℚ) ≤ 1),
      max_self]
    rw [if_pos (by norm_num : ((-1 : ℚ) < 0)),
      if_pos (by norm_num : ((-1 : ℚ) * 32768 < 0)),
      show ⌊-((-1 : ℚ) * 32768)⌋ = 32768 by norm_num]
    decide
  have h15 : quantize (3 / 2) = 32767 := by
    simp only [quantize, jsTruncQ, toInt16, min_eq_left (by norm_num : (1 : ℚ) ≤ 3 / 2),
      max_eq_right (by norm_num : (-1 : ℚ) ≤ 1)]
    rw [if_neg (by norm_num : ¬((1 : ℚ) < 0)),
      if_neg (by norm_num : ¬((1 : ℚ) * 32767 < 0)),
      show ⌊(1 : ℚ) * 32767⌋ = 32767 by norm_num]
    decide
  exact ⟨h1, hneg, by rw [h15, h1]⟩

/-! ### Byte-range splitting (`splitAudioFile`) -/

theorem splitLoop_eq_nil_of_ge (fileBytes : List ℕ) (c fuel start : ℕ)
    (h : ¬ start < fileBytes.length) : splitLoop fileBytes c fuel start = [] := by
  cases fuel with
  | zero => rfl
  | succ fuel =>
    unfold splitLoop
    rw [if_neg]
    intro hcon
    exact h hcon.1

theorem splitLoop_spec (fileBytes : List ℕ) (c : ℕ) (hc : 0 < c) :
    ∀ fuel start, fileBytes.length - start ≤ fuel →
      (splitLoop fileBytes c fuel start).flatten = fileBytes.drop start ∧
      (∀ ch ∈ (splitLoop fileBytes c fuel start).dropLast, ch.length = c) ∧
      (∀ ch, (splitLoop fileBytes c fuel start).getLast? = some ch → ch.length ≤ c) := by
  intro fuel
  induction fuel with
  | zero =>
    intro start hle
    have : fileBytes.length ≤ start := by omega
    simp [splitLoop, List.drop_eq_nil_of_le this]
  | succ fuel ih =>
    intro start hle
    by_cases hs : start < fileBytes.length
    case neg =>
      rw [splitLoop_eq_nil_of_ge fileBytes c (fuel + 1) start hs]
      simp [List.drop_eq_nil_of_le (by omega : fileBytes.length ≤ start)]
    case pos =>
      have hguard : start < fileBytes.length ∧ 0 < c := ⟨hs, hc⟩
      have hdef : splitLoop fileBytes c (fuel + 1) start =
          ((fileBytes.drop start).take (min (start + c) fileBytes.length - start)) ::
            splitLoop fileBytes c fuel (min (start + c) fileBytes.length) := by
        simp only [splitLoop]
        rw [if_pos hguard]
      set e := min (start + c) fileBytes.length with he
      have hse : start < e := by omega
      have hel : e ≤ fileBytes.length := by omega
      have hrec := ih e (by omega)
      have hslice_len : ((fileBytes.drop start).take (e - start)).length = e - start := by
        rw [List.length_take, List.length_drop]
        omega
      refine ⟨?_, ?_, ?_⟩
      · rw [hdef, List.flatten_cons, hrec.1]
        have hdd : fileBytes.drop e = (fileBytes.drop start).drop (e - start) := by
          rw [List.drop_drop]
          congr 1
          omega
        rw [hdd, List.take_append_drop]
      · rw [hdef]
        rcases hnil : splitLoop fileBytes c fuel e with _ | ⟨x, xs⟩
        · simp
        · intro ch hch
          rw [List.dropLast_cons_of_ne_nil (by simp)] at hch
          rcases List.mem_cons.mp hch with hhd | htl
          · -- the recursive list is nonempty, so `e` did not reach the end
            have hlt : e < fileBytes.length := by
              by_contra hcon
              have := splitLoop_eq_nil_of_ge fileBytes c fuel e hcon
              rw [this] at hnil
              exact List.noConfusion hnil
            have hec : e = start + c := by omega
            rw [hhd, hslice_len, hec]
            omega
          · exact hrec.2.1 ch (hnil ▸ htl)
      · rw [hdef]
        rcases hnil : splitLoop fileBytes c fuel e with _ | ⟨x, xs⟩
        · intro ch hch
          simp only [List.getLast?_singleton, Option.some.injEq] at hch
          rw [← hch, hslice_len]
          omega
        · intro ch hch
          rw [List.getLast?_cons_cons] at hch
          exact hrec.2.2 ch (hnil ▸ hch)

/-- C10: for every file content and positive chunk size, the byte chunks
returned by `splitAudioFile` concatenate back to the original bytes, every
chunk but the last has size exactly `chunkSizeInBytes`, the last has size
at most `chunkSizeInBytes`, and a file no larger than the chunk size is
returned as the single-element list holding the original content. -/
theorem splitAudioFile_spec (fileBytes : List ℕ) (chunkSizeInBytes : ℕ)
    (hc : 0 < chunkSizeInBytes) :
    (splitAudioFile fileBytes chunkSizeInBytes).flatten = fileBytes ∧
    (∀ ch ∈ (splitAudioFile fileBytes chunkSizeInBytes).dropLast,
      ch.length = chunkSizeInBytes) ∧
    (∀ ch, (splitAudioFile fileBytes chunkSizeInBytes).getLast? = some ch →
      ch.length ≤ chunkSizeInBytes) ∧
    (fileBytes.length ≤ chunkSizeInBytes →
      splitAudioFile fileBytes chunkSizeInBytes = [fileBytes]) := by
  unfold splitAudioFile
  by_cases h : fileBytes.length ≤ chunkSizeInBytes
  · rw [if_pos h]
    refine ⟨by simp, by simp, ?_, fun _ => rfl⟩
    intro ch hch
    simp only [List.getLast?_singleton, Option.some.injEq] at hch
    rw [← hch]
    exact h
  · rw [if_neg h]
    have hspec := splitLoop_spec fileBytes chunkSizeInBytes hc fileBytes.length 0 (by omega)
    refine ⟨by rw [hspec.1, List.drop_zero], hspec.2.1, hspec.2.2, fun hcon => absurd hcon h⟩

/-- Witness for C10 at the concrete file `[1,2,3,4,5]` with chunk size 2. -/
theorem splitAudioFile_spec_witness :
    (splitAudioFile [1, 2, 3, 4, 5] 2).flatten = [1, 2, 3, 4, 5] ∧
    (∀ ch ∈ (splitAudioFile [1, 2, 3, 4, 5] 2).dropLast, ch.length = 2) ∧
    (∀ ch, (splitAudioFile [1, 2, 3, 4, 5] 2).getLast? = some ch → ch.length ≤ 2) ∧
    ((5 : ℕ) ≤ 2 → splitAudioFile [1, 2, 3, 4, 5] 2 = [[1, 2, 3, 4, 5]]) := by
  exact splitAudioFile_spec [1, 2, 3, 4, 5] 2 (by decide)

/-! ### WAV encoder: sizes and header layout -/

theorem wavHeader_length (numChannels sampleRate dataSize : ℕ) :
    (wavHeader numChannels sampleRate dataSize).length = 44 := by
  simp [wavHeader, uint32LE, uint16LE]

theorem frameBlock_length (buffer : AudioBuffer) (i : ℕ) :
    ((List.range buffer.numberOfChannels).flatMap fun channel =>
      int16ToBytes (quantize (buffer.data channel i))).length =
      2 * buffer.numberOfChannels := by
  rw [List.length_flatMap]
  have hmap : List.map
      (List.length ∘ fun channel => int16ToBytes (quantize (buffer.data channel i)))
      (List.range buffer.numberOfChannels) =
      List.map (fun _ => 2) (List.range buffer.numberOfChannels) :=
    List.map_congr_left fun ch _ => by simp [int16ToBytes, uint16LE]
  rw [hmap, List.map_const', List.sum_replicate, smul_eq_mul, List.length_range, mul_comm]

theorem wavData_length (buffer : AudioBuffer) :
    (wavData buffer).length = buffer.length * buffer.numberOfChannels * 2 := by
  rw [wavData, List.length_flatMap]
  have hmap : List.map
      (List.length ∘ fun i => (List.range buffer.numberOfChannels).flatMap fun channel =>
        int16ToBytes (quantize (buffer.data channel i)))
      (List.range buffer.length) =
      List.map (fun _ => 2 * buffer.numberOfChannels) (List.range buffer.length) :=
    List.map_congr_left fun i _ => by
      rw [Function.comp_apply]
      exact frameBlock_length buffer i
  rw [hmap, List.map_const', List.sum_replicate, smul_eq_mul, List.length_range]
  ring

theorem audioBufferToWav_length (buffer : AudioBuffer) :
    (audioBufferToWav buffer).length =
      44 + buffer.length * buffer.numberOfChannels * 2 := by
  rw [audioBufferToWav, List.length_append, wavHeader_length, wavData_length]

/-- C3: the encoder emits a fixed 44-byte little-endian header whose
fields match the §4.3 table, and the 1-second mono 44100 Hz zero buffer
encodes to exactly `44 + 44100*2` bytes. -/
theorem wav_header_layout (buffer : AudioBuffer)
    (hch : buffer.numberOfChannels * 2 < 65536)
    (hsr : buffer.sampleRate < 4294967296)
    (hbr : buffer.sampleRate * buffer.numberOfChannels * 2 < 4294967296)
    (hds : 36 + buffer.length * buffer.numberOfChannels * 2 < 4294967296) :
    (audioBufferToWav buffer).length =
      44 + buffer.length * buffer.numberOfChannels * 2 ∧
    (audioBufferToWav buffer).take 4 = [82, 73, 70, 70] ∧
    readU32 (audioBufferToWav buffer) 4 =
      36 + buffer.length * buffer.numberOfChannels * 2 ∧
    ((audioBufferToWav buffer).drop 8).take 4 = [87, 65, 86, 69] ∧
    ((audioBufferToWav buffer).drop 12).take 4 = [102, 109, 116, 32] ∧
    readU32 (audioBufferToWav buffer) 16 = 16 ∧
    readU16 (audioBufferToWav buffer) 20 = 1 ∧
    readU16 (audioBufferToWav buffer) 22 = buffer.numberOfChannels ∧
    readU32 (audioBufferToWav buffer) 24 = buffer.sampleRate ∧
    readU32 (audioBufferToWav buffer) 28 =
      buffer.sampleRate * buffer.numberOfChannels * 2 ∧
    readU16 (audioBufferToWav buffer) 32 = buffer.numberOfChannels * 2 ∧
    readU16 (audioBufferToWav buffer) 34 = 16 ∧
    ((audioBufferToWav buffer).drop 36).take 4 = [100, 97, 116, 97] ∧
    readU32 (audioBufferToWav buffer) 40 =
      buffer.length * buffer.numberOfChannels * 2 ∧
    (audioBufferToWav oneSecondZeroBuffer).length = 44 + 44100 * 2 := by
  refine ⟨audioBufferToWav_length buffer, ?_, ?_, ?_, ?_, ?_, ?_, ?_, ?_, ?_, ?_, ?_, ?_,
    ?_, ?_⟩
  · simp [audioBufferToWav, wavHeader, uint32LE, uint16LE]
  · simp only [audioBufferToWav, wavHeader, uint32LE, uint16LE, readU32, List.cons_append,
      List.nil_append]
    simp only [List.getD_cons_succ, List.getD_cons_zero]
    omega
  · simp [audioBufferToWav, wavHeader, uint32LE, uint16LE]
  · simp [audioBufferToWav, wavHeader, uint32LE, uint16LE]
  · simp only [audioBufferToWav, wavHeader, uint32LE, uint16LE, readU32, List.cons_append,
      List.nil_append]
    simp only [List.getD_cons_succ, List.getD_cons_zero]
  · simp only [audioBufferToWav, wavHeader, uint32LE, uint16LE, readU16, List.cons_append,
      List.nil_append]
    simp only [List.getD_cons_succ, List.getD_cons_zero]
  · simp only [audioBufferToWav, wavHeader, uint32LE, uint16LE, readU16, List.cons_append,
      List.nil_append]
    simp only [List.getD_cons_succ, List.getD_cons_zero]
    omega
  · simp only [audioBufferToWav, wavHeader, uint32LE, uint16LE, readU32, List.cons_append,
      List.nil_append]
    simp only [List.getD_cons_succ, List.getD_cons_zero]
    omega
  · simp only [audioBufferToWav, wavHeader, uint32LE, uint16LE, readU32, List.cons_append,
      List.nil_append]
    simp only [List.getD_cons_succ, List.getD_cons_zero]
    have h : buffer.sampleRate * (buffer.numberOfChannels * 2) =
        buffer.sampleRate * buffer.numberOfChannels * 2 := by ring
    rw [h] at *
    omega
  · simp only [audioBufferToWav, wavHeader, uint32LE, uint16LE, readU16, List.cons_append,
      List.nil_append]
    simp only [List.getD_cons_succ, List.getD_cons_zero]
    omega
  · simp only [audioBufferToWav, wavHeader, uint32LE, uint16LE, readU16, List.cons_append,
      List.nil_append]
    simp only [List.getD_cons_succ, List.getD_cons_zero]
  · simp [audioBufferToWav, wavHeader, uint32LE, uint16LE]
  · simp only [audioBufferToWav, wavHeader, uint32LE, uint16LE, readU32, List.cons_append,
      List.nil_append]
    simp only [List.getD_cons_succ, List.getD_cons_zero]
    omega
  · rw [audioBufferToWav_length]
    rfl

/-- Witness for C3 at the concrete 1-second mono 44100 Hz zero buffer. -/
theorem wav_header_layout_witness :
    (audioBufferToWav oneSecondZeroBuffer).length =
      44 + oneSecondZeroBuffer.length * oneSecondZeroBuffer.numberOfChannels * 2 ∧
    (audioBufferToWav oneSecondZeroBuffer).take 4 = [82, 73, 70, 70] ∧
    readU32 (audioBufferToWav oneSecondZeroBuffer) 4 =
      36 + oneSecondZeroBuffer.length * oneSecondZeroBuffer.numberOfChannels * 2 ∧
    ((audioBufferToWav oneSecondZeroBuffer).drop 8).take 4 = [87, 65, 86, 69] ∧
    ((audioBufferToWav oneSecondZeroBuffer).drop 12).take 4 = [102, 109, 116, 32] ∧
    readU32 (audioBufferToWav oneSecondZeroBuffer) 16 = 16 ∧
    readU16 (audioBufferToWav oneSecondZeroBuffer) 20 = 1 ∧
    readU16 (audioBufferToWav oneSecondZeroBuffer) 22 =
      oneSecondZeroBuffer.numberOfChannels ∧
    readU32 (audioBufferToWav oneSecondZeroBuffer) 24 = oneSecondZeroBuffer.sampleRate ∧
    readU32 (audioBufferToWav oneSecondZeroBuffer) 28 =
      oneSecondZeroBuffer.sampleRate * oneSecondZeroBuffer.numberOfChannels * 2 ∧
    readU16 (audioBufferToWav oneSecondZeroBuffer) 32 =
      oneSecondZeroBuffer.numberOfChannels * 2 ∧
    readU16 (audioBufferToWav oneSecondZeroBuffer) 34 = 16 ∧
    ((audioBufferToWav oneSecondZeroBuffer).drop 36).take 4 = [100, 97, 116, 97] ∧
    readU32 (audioBufferToWav oneSecondZeroBuffer) 40 =
      oneSecondZeroBuffer.length * oneSecondZeroBuffer.numberOfChannels * 2 ∧
    (audioBufferToWav oneSecondZeroBuffer).length = 44 + 44100 * 2 :=
  wav_header_layout oneSecondZeroBuffer (by decide) (by decide) (by decide) (by decide)

/-! ### WAV encoder: PCM interleaving -/

theorem flatMap_range_drop {α : Type*} (m : ℕ) :
    ∀ (i : ℕ) (g : ℕ → List α) (n : ℕ), (∀ k, (g k).length = m) → i < n →
      ∃ t, ((List.range n).flatMap g).drop (m * i) = g i ++ t := by
  intro i
  induction i with
  | zero =>
    intro g n hg hn
    cases n with
    | zero => omega
    | succ n =>
      rw [List.range_succ_eq_map, List.flatMap_cons, mul_zero, List.drop_zero]
      exact ⟨_, rfl⟩
  | succ i ih =>
    intro g n hg hn
    cases n with
    | zero => omega
    | succ n =>
      rw [List.range_succ_eq_map, List.flatMap_cons, List.flatMap_map]
      have hsplit : m * (i + 1) = (g 0).length + m * i := by
        rw [hg 0]; ring
      rw [hsplit, List.drop_append]
      exact ih (fun a => g a.succ) n (fun k => hg k.succ) (by omega)

theorem wavData_sample_bytes (buffer : AudioBuffer) (i c : ℕ)
    (hi : i < buffer.length) (hc : c < buffer.numberOfChannels) :
    ((wavData buffer).drop (2 * (buffer.numberOfChannels * i + c))).take 2
      = int16ToBytes (quantize (buffer.data c i)) := by
  obtain ⟨t, ht⟩ := flatMap_range_drop (2 * buffer.numberOfChannels) i
    (fun j => (List.range buffer.numberOfChannels).flatMap fun channel =>
      int16ToBytes (quantize (buffer.data channel j)))
    buffer.length (fun k => frameBlock_length buffer k) hi
  obtain ⟨t', ht'⟩ := flatMap_range_drop 2 c
    (fun channel => int16ToBytes (quantize (buffer.data channel i)))
    buffer.numberOfChannels (fun _ => rfl) hc
  have hsplit : 2 * (buffer.numberOfChannels * i + c) =
      2 * buffer.numberOfChannels * i + 2 * c := by ring
  rw [hsplit, ← List.drop_drop]
  rw [show (wavData buffer).drop (2 * buffer.numberOfChannels * i) =
    (fun j => (List.range buffer.numberOfChannels).flatMap fun channel =>
      int16ToBytes (quantize (buffer.data channel j))) i ++ t from ht]
  rw [List.drop_append_of_le_length (by rw [frameBlock_length]; omega)]
  rw [ht', List.append_assoc]
  exact List.take_left' rfl

/-- C4: the encoder writes PCM frame-major and channel-minor — the two
bytes of the sample for frame `i`, channel `c` sit at byte offset
`44 + 2*(numberOfChannels*i + c)`; in particular for a 2-channel buffer,
offset 44 holds channel 0 of frame 0, offset 46 channel 1 of frame 0, and
offset 48 channel 0 of frame 1. -/
theorem wav_interleaving :
    (∀ buffer : AudioBuffer, ∀ i c : ℕ, i < buffer.length →
      c < buffer.numberOfChannels →
      ((audioBufferToWav buffer).drop
          (44 + 2 * (buffer.numberOfChannels * i + c))).take 2
        = int16ToBytes (quantize (buffer.data c i))) ∧
    (∀ buffer : AudioBuffer, buffer.numberOfChannels = 2 → 2 ≤ buffer.length →
      ((audioBufferToWav buffer).drop 44).take 2
          = int16ToBytes (quantize (buffer.data 0 0)) ∧
        ((audioBufferToWav buffer).drop 46).take 2
          = int16ToBytes (quantize (buffer.data 1 0)) ∧
        ((audioBufferToWav buffer).drop 48).take 2
          = int16ToBytes (quantize (buffer.data 0 1))) := by
  have hgen : ∀ buffer : AudioBuffer, ∀ i c : ℕ, i < buffer.length →
      c < buffer.numberOfChannels →
      ((audioBufferToWav buffer).drop
          (44 + 2 * (buffer.numberOfChannels * i + c))).take 2
        = int16ToBytes (quantize (buffer.data c i)) := by
    intro buffer i c hi hc
    rw [audioBufferToWav,
      show 44 + 2 * (buffer.numberOfChannels * i + c) =
        (wavHeader buffer.numberOfChannels buffer.sampleRate
          (buffer.length * buffer.numberOfChannels * 2)).length +
          2 * (buffer.numberOfChannels * i + c) by rw [wavHeader_length],
      List.drop_append]
    exact wavData_sample_bytes buffer i c hi hc
  refine ⟨hgen, ?_⟩
  intro buffer h2 hlen
  refine ⟨?_, ?_, ?_⟩
  · have := hgen buffer 0 0 (by omega) (by omega)
    simpa using this
  · have := hgen buffer 0 1 (by omega) (by omega)
    rw [h2] at this
    simpa using this
  · have := hgen buffer 1 0 (by omega) (by omega)
    rw [h2] at this
    simpa using this

/-- Witness for C4 at the concrete 2-channel buffer. -/
theorem wav_interleaving_witness :
    ((audioBufferToWav twoChannelBuffer).drop 44).take 2
        = int16ToBytes (quantize (twoChannelBuffer.data 0 0)) ∧
      ((audioBufferToWav twoChannelBuffer).drop 46).take 2
        = int16ToBytes (quantize (twoChannelBuffer.data 1 0)) ∧
      ((audioBufferToWav twoChannelBuffer).drop 48).take 2
        = int16ToBytes (quantize (twoChannelBuffer.data 0 1)) :=
  wav_interleaving.2 twoChannelBuffer rfl (by decide)

/-! ### Chunker: window boundaries -/

theorem duration_nonneg (b : AudioBuffer) : 0 ≤ b.duration :=
  div_nonneg (Nat.cast_nonneg _) (Nat.cast_nonneg _)

theorem boundary_zero (b : AudioBuffer) (d : ℚ) : boundary b d 0 = 0 := by
  unfold boundary
  rw [Nat.cast_zero, zero_mul, min_eq_left (duration_nonneg b), zero_mul, Int.floor_zero]

theorem boundary_mono (b : AudioBuffer) (d : ℚ) (hd : 0 ≤ d) :
    Monotone (boundary b d) := by
  intro i j hij
  unfold boundary
  apply Int.floor_mono
  apply mul_le_mul_of_nonneg_right _ (Nat.cast_nonneg _)
  exact min_le_min (mul_le_mul_of_nonneg_right (Nat.cast_le.mpr hij) hd) le_rfl

theorem lt_duration_of_lt_totalChunks (b : AudioBuffer) (d : ℚ) (hd : 0 < d) {i : ℕ}
    (hi : i < totalChunksOf b d) : (i : ℚ) * d < b.duration := by
  unfold totalChunksOf at hi
  have h1 : ((i : ℤ) : ℚ) < b.duration / d := Int.lt_ceil.mp (Int.lt_toNat.mp hi)
  rw [Int.cast_natCast] at h1
  exact (lt_div_iff₀ hd).mp h1

theorem boundary_eq_of_lt (b : AudioBuffer) (d : ℚ) (hd : 0 < d) {i : ℕ}
    (hi : i < totalChunksOf b d) :
    boundary b d i = ⌊(i : ℚ) * d * (b.sampleRate : ℚ)⌋ := by
  unfold boundary
  rw [min_eq_left (le_of_lt (lt_duration_of_lt_totalChunks b d hd hi))]

theorem boundary_totalChunks (b : AudioBuffer) (d : ℚ) (hd : 0 < d)
    (hr : 0 < b.sampleRate) :
    boundary b d (totalChunksOf b d) = (b.length : ℤ) := by
  unfold boundary
  have hle : b.duration ≤ (totalChunksOf b d : ℚ) * d := by
    have h1 : (⌈b.duration / d⌉ : ℤ) ≤ ((totalChunksOf b d : ℕ) : ℤ) := Int.self_le_toNat _
    have h2 : b.duration / d ≤ ((totalChunksOf b d : ℕ) : ℚ) := by
      have := Int.ceil_le.mp h1
      rwa [Int.cast_natCast] at this
    exact (div_le_iff₀ hd).mp h2
  rw [min_eq_right hle]
  unfold AudioBuffer.duration
  have hrne : ((b.sampleRate : ℚ)) ≠ 0 := by
    exact_mod_cast Nat.pos_iff_ne_zero.mp hr
  rw [div_mul_cancel₀ _ hrne, Int.floor_natCast]

theorem windowAt_eq_boundary (b : AudioBuffer) (d : ℚ) (hd : 0 < d) {i : ℕ}
    (hi : i < totalChunksOf b d) :
    windowAt b d i =
      if boundary b d i < boundary b d (i + 1) then
        some (boundary b d i, boundary b d (i + 1))
      else none := by
  have hiT : (i : ℚ) * d < b.duration := lt_duration_of_lt_totalChunks b d hd hi
  have hguard : ¬ (min ((i : ℚ) * d + d) b.duration ≤ (i : ℚ) * d) := by
    push_neg
    exact lt_min (by linarith) hiT
  have hstart : boundary b d i = ⌊(i : ℚ) * d * (b.sampleRate : ℚ)⌋ :=
    boundary_eq_of_lt b d hd hi
  have hend : boundary b d (i + 1) =
      ⌊min ((i : ℚ) * d + d) b.duration * (b.sampleRate : ℚ)⌋ := by
    unfold boundary
    have harg : ((i + 1 : ℕ) : ℚ) * d = (i : ℚ) * d + d := by
      push_cast
      ring
    rw [harg]
  simp only [windowAt]
  rw [if_neg hguard, ← hstart, ← hend]
  by_cases h : boundary b d i < boundary b d (i + 1)
  · rw [if_neg (by omega), if_pos h]
  · rw [if_pos (by omega), if_neg h]

/-- The boundaries of the emitted (positive-length) windows of a monotone
boundary function chain up, start at `off 0`, and end at `off n`. -/
theorem filterMap_boundary_windows (off : ℕ → ℤ) (hmono : Monotone off) (n : ℕ) :
    List.Chain' (fun w1 w2 : ℤ × ℤ => w1.2 = w2.1)
      ((List.range n).filterMap fun i =>
        if off i < off (i + 1) then some (off i, off (i + 1)) else none) ∧
    (∀ w, ((List.range n).filterMap fun i =>
        if off i < off (i + 1) then some (off i, off (i + 1)) else none).head? = some w →
        w.1 = off 0) ∧
    (∀ w, ((List.range n).filterMap fun i =>
        if off i < off (i + 1) then some (off i, off (i + 1)) else none).getLast? = some w →
        w.2 = off n) ∧
    (((List.range n).filterMap fun i =>
        if off i < off (i + 1) then some (off i, off (i + 1)) else none) = [] →
        off n = off 0) := by
  induction n with
  | zero => exact ⟨List.chain'_nil, by simp, by simp, fun _ => rfl⟩
  | succ n ih =>
    obtain ⟨ihc, ihh, ihl, ihe⟩ := ih
    rw [List.range_succ, List.filterMap_append]
    by_cases h : off n < off (n + 1)
    · have hstep : ([n].filterMap fun i =>
          if off i < off (i + 1) then some (off i, off (i + 1)) else none) =
          [(off n, off (n + 1))] := by
        simp [h]
      rw [hstep]
      refine ⟨?_, ?_, ?_, by simp⟩
      · rw [List.chain'_append]
        refine ⟨ihc, List.chain'_singleton _, ?_⟩
        intro x hx y hy
        simp only [List.head?_cons, Option.mem_def, Option.some.injEq] at hy
        rw [← hy]
        exact ihl x hx
      · cases hF : (List.range n).filterMap fun i =>
            if off i < off (i + 1) then some (off i, off (i + 1)) else none with
        | nil =>
          intro w hw
          simp only [List.nil_append, List.head?_cons, Option.some.injEq] at hw
          rw [← hw]
          exact ihe hF
        | cons a F' =>
          intro w hw
          simp only [List.cons_append, List.head?_cons, Option.some.injEq] at hw
          rw [← hw]
          exact ihh a (by rw [hF]; rfl)
      · intro w hw
        rw [List.getLast?_concat] at hw
        rw [← Option.some.injEq _ _ |>.mp hw]
    · have hstep : ([n].filterMap fun i =>
          if off i < off (i + 1) then some (off i, off (i + 1)) else none) = [] := by
        simp [h]
      have heq : off (n + 1) = off n :=
        le_antisymm (not_lt.mp h) (hmono (Nat.le_succ n))
      rw [hstep, List.append_nil]
      exact ⟨ihc, ihh, fun w hw => heq ▸ ihl w hw, fun hF => heq ▸ ihe hF⟩

theorem length_filterMap_comp {α β γ : Type*} (f : α → Option β) (g : α → β → γ)
    (l : List α) :
    (l.filterMap fun a => (f a).map (g a)).length = (l.filterMap f).length := by
  induction l with
  | nil => rfl
  | cons a t ih =>
    cases hfa : f a with
    | none => simp [List.filterMap_cons, hfa, ih]
    | some b => simp [List.filterMap_cons, hfa, ih]

theorem length_filterMap_eq_length_filter {α β : Type*} (f : α → Option β) (l : List α) :
    (l.filterMap f).length = (l.filter fun a => (f a).isSome).length := by
  induction l with
  | nil => rfl
  | cons a t ih =>
    cases hfa : f a with
    | none => simp [List.filterMap_cons, List.filter_cons, hfa, ih]
    | some b => simp [List.filterMap_cons, List.filter_cons, hfa, ih]

/-- C1 (amended): under exact rational arithmetic — the idealization of
the source's binary64 number computations — the frame windows of the
chunks emitted by `processAndSplitAudio` are contiguous (each start
equals the previous end), strictly positive in length, start at frame 0,
end at frame `length`, and are empty exactly when the buffer has no
frames; the number of emitted chunks equals the number of emitted
windows. Under the code's actual binary64 arithmetic the trailing window
can end below `length` — see the counterexample
`float_rounding_breaks_partition` — so the exact-coverage clause of the
original claim holds only of the idealized arithmetic. -/
theorem emitted_windows_partition (b : AudioBuffer) (d : ℚ) (hd : 0 < d)
    (hr : 0 < b.sampleRate) :
    List.Chain' (fun w1 w2 : ℤ × ℤ => w1.2 = w2.1) (emittedWindows b d) ∧
    (∀ w ∈ emittedWindows b d, w.1 < w.2) ∧
    (∀ w, (emittedWindows b d).head? = some w → w.1 = 0) ∧
    (∀ w, (emittedWindows b d).getLast? = some w → w.2 = (b.length : ℤ)) ∧
    (emittedWindows b d = [] ↔ b.length = 0) ∧
    (∀ fileName, ((processAndSplitAudio fileName b d).1).length =
      (emittedWindows b d).length) := by
  have hW : emittedWindows b d = (List.range (totalChunksOf b d)).filterMap fun i =>
      if boundary b d i < boundary b d (i + 1) then
        some (boundary b d i, boundary b d (i + 1))
      else none :=
    List.filterMap_congr fun i hi =>
      windowAt_eq_boundary b d hd (List.mem_range.mp hi)
  obtain ⟨hchain, hhead, hlast, hempty⟩ :=
    filterMap_boundary_windows (boundary b d) (boundary_mono b d (le_of_lt hd))
      (totalChunksOf b d)
  refine ⟨?_, ?_, ?_, ?_, ?_, ?_⟩
  · rw [hW]
    exact hchain
  · intro w hw
    rw [hW] at hw
    obtain ⟨i, _, hsome⟩ := List.mem_filterMap.mp hw
    by_cases h : boundary b d i < boundary b d (i + 1)
    · rw [if_pos h] at hsome
      obtain rfl := Option.some.injEq _ _ |>.mp hsome
      exact h
    · rw [if_neg h] at hsome
      exact absurd hsome (Option.noConfusion)
  · intro w hw
    rw [hW] at hw
    rw [hhead w hw, boundary_zero]
  · intro w hw
    rw [hW] at hw
    rw [hlast w hw, boundary_totalChunks b d hd hr]
  · constructor
    · intro hnil
      rw [hW] at hnil
      have h0 := hempty hnil
      rw [boundary_totalChunks b d hd hr, boundary_zero] at h0
      exact_mod_cast h0
    · intro h0
      have hT : b.duration = 0 := by
        rw [AudioBuffer.duration, h0, Nat.cast_zero, zero_div]
      unfold emittedWindows totalChunksOf
      rw [hT, zero_div, Int.ceil_zero]
      rfl
  · intro fileName
    simp only [processAndSplitAudio, emittedWindows]
    exact length_filterMap_comp _ _ _

/-- Witness for C1 at the 10-second mono 8000 Hz buffer with 3-second
chunks. -/
theorem emitted_windows_partition_witness :
    List.Chain' (fun w1 w2 : ℤ × ℤ => w1.2 = w2.1)
      (emittedWindows tenSecondMonoBuffer 3) ∧
    (∀ w ∈ emittedWindows tenSecondMonoBuffer 3, w.1 < w.2) ∧
    (∀ w, (emittedWindows tenSecondMonoBuffer 3).head? = some w → w.1 = 0) ∧
    (∀ w, (emittedWindows tenSecondMonoBuffer 3).getLast? = some w →
      w.2 = (tenSecondMonoBuffer.length : ℤ)) ∧
    (emittedWindows tenSecondMonoBuffer 3 = [] ↔ tenSecondMonoBuffer.length = 0) ∧
    (∀ fileName, ((processAndSplitAudio fileName tenSecondMonoBuffer 3).1).length =
      (emittedWindows tenSecondMonoBuffer 3).length) :=
  emitted_windows_partition tenSecondMonoBuffer 3 zero_lt_three (by decide)

/-! ### Chunker: concrete evaluations -/

theorem tenSecond_duration : tenSecondMonoBuffer.duration = 10 := by
  norm_num [AudioBuffer.duration, tenSecondMonoBuffer]

theorem tenSecond_totalChunks : totalChunksOf tenSecondMonoBuffer 3 = 4 := by
  unfold totalChunksOf
  rw [tenSecond_duration, show ⌈(10 : ℚ) / 3⌉ = 4 by rw [Int.ceil_eq_iff]; norm_num]
  rfl

theorem tenSecond_boundary1 : boundary tenSecondMonoBuffer 3 1 = 24000 := by
  unfold boundary
  rw [tenSecond_duration]
  norm_num [tenSecondMonoBuffer, min_def]

theorem tenSecond_boundary2 : boundary tenSecondMonoBuffer 3 2 = 48000 := by
  unfold boundary
  rw [tenSecond_duration]
  norm_num [tenSecondMonoBuffer, min_def]

theorem tenSecond_boundary3 : boundary tenSecondMonoBuffer 3 3 = 72000 := by
  unfold boundary
  rw [tenSecond_duration]
  norm_num [tenSecondMonoBuffer, min_def]

theorem tenSecond_boundary4 : boundary tenSecondMonoBuffer 3 4 = 80000 := by
  unfold boundary
  rw [tenSecond_duration]
  norm_num [tenSecondMonoBuffer, min_def]

theorem tenSecond_window0 : windowAt tenSecondMonoBuffer 3 0 = some (0, 24000) := by
  rw [windowAt_eq_boundary tenSecondMonoBuffer 3 zero_lt_three
      (by rw [tenSecond_totalChunks]; omega),
    boundary_zero, tenSecond_boundary1, if_pos (by decide)]

theorem tenSecond_window1 : windowAt tenSecondMonoBuffer 3 1 = some (24000, 48000) := by
  rw [windowAt_eq_boundary tenSecondMonoBuffer 3 zero_lt_three
      (by rw [tenSecond_totalChunks]; omega),
    tenSecond_boundary1, tenSecond_boundary2, if_pos (by decide)]

theorem tenSecond_window2 : windowAt tenSecondMonoBuffer 3 2 = some (48000, 72000) := by
  rw [windowAt_eq_boundary tenSecondMonoBuffer 3 zero_lt_three
      (by rw [tenSecond_totalChunks]; omega),
    tenSecond_boundary2, tenSecond_boundary3, if_pos (by decide)]

theorem tenSecond_window3 : windowAt tenSecondMonoBuffer 3 3 = some (72000, 80000) := by
  rw [windowAt_eq_boundary tenSecondMonoBuffer 3 zero_lt_three
      (by rw [tenSecond_totalChunks]; omega),
    tenSecond_boundary3, tenSecond_boundary4, if_pos (by decide)]

theorem tenSecond_windows_eval :
    emittedWindows tenSecondMonoBuffer 3 =
      [(0, 24000), (24000, 48000), (48000, 72000), (72000, 80000)] := by
  unfold emittedWindows
  rw [tenSecond_totalChunks, show List.range 4 = [0, 1, 2, 3] from rfl]
  simp [List.filterMap_cons, tenSecond_window0, tenSecond_window1, tenSecond_window2,
    tenSecond_window3]

theorem tenSecond_chunks_eval :
    (processAndSplitAudio "audio.mp3" tenSecondMonoBuffer 3).1 =
      [⟨chunkName "audio.mp3" 1, audioBufferToWav (sliceBuffer tenSecondMonoBuffer (0, 24000))⟩,
       ⟨chunkName "audio.mp3" 2,
         audioBufferToWav (sliceBuffer tenSecondMonoBuffer (24000, 48000))⟩,
       ⟨chunkName "audio.mp3" 3,
         audioBufferToWav (sliceBuffer tenSecondMonoBuffer (48000, 72000))⟩,
       ⟨chunkName "audio.mp3" 4,
         audioBufferToWav (sliceBuffer tenSecondMonoBuffer (72000, 80000))⟩] := by
  simp only [processAndSplitAudio]
  rw [tenSecond_totalChunks, show List.range 4 = [0, 1, 2, 3] from rfl]
  simp [List.filterMap_cons, tenSecond_window0, tenSecond_window1, tenSecond_window2,
    tenSecond_window3]

/-- C5: chunking the 10-second mono 8000 Hz input with 3-second chunks
yields exactly 4 chunks with frame windows `[0,24000)`, `[24000,48000)`,
`[48000,72000)`, `[72000,80000)` — frame counts `[24000, 24000, 24000,
8000]` — named `audio_parte_01.wav` … `audio_parte_04.wav`. -/
theorem ten_second_chunking :
    emittedWindows tenSecondMonoBuffer 3 =
      [(0, 24000), (24000, 48000), (48000, 72000), (72000, 80000)] ∧
    (emittedWindows tenSecondMonoBuffer 3).map (fun w => w.2 - w.1) =
      [24000, 24000, 24000, 8000] ∧
    ((processAndSplitAudio "audio.mp3" tenSecondMonoBuffer 3).1).map EncodedChunk.name =
      ["audio_parte_01.wav", "audio_parte_02.wav", "audio_parte_03.wav",
        "audio_parte_04.wav"] ∧
    ((processAndSplitAudio "audio.mp3" tenSecondMonoBuffer 3).1).length = 4 := by
  refine ⟨tenSecond_windows_eval, ?_, ?_, ?_⟩
  · rw [tenSecond_windows_eval]
    decide
  · rw [tenSecond_chunks_eval]
    decide
  · rw [tenSecond_chunks_eval]
    rfl

/-! ### Chunker: degenerate windows and progress (C6) -/

theorem oneFrame_duration : oneFrameBuffer.duration = 1 := by
  norm_num [AudioBuffer.duration, oneFrameBuffer]

theorem oneFrame_totalChunks : totalChunksOf oneFrameBuffer (3 / 10) = 4 := by
  unfold totalChunksOf
  rw [oneFrame_duration, show (1 : ℚ) / (3 / 10) = 10 / 3 by norm_num,
    show ⌈(10 : ℚ) / 3⌉ = 4 by rw [Int.ceil_eq_iff]; norm_num]
  rfl

theorem oneFrame_boundary1 : boundary oneFrameBuffer (3 / 10) 1 = 0 := by
  unfold boundary
  rw [oneFrame_duration]
  rw [show ((1 : ℕ) : ℚ) * (3 / 10) = 3 / 10 by norm_num,
    show min ((3 : ℚ) / 10) 1 = 3 / 10 by rw [min_def]; norm_num,
    show ((3 : ℚ) / 10) * (oneFrameBuffer.sampleRate : ℚ) = 3 / 10 by
      norm_num [oneFrameBuffer],
    show ⌊(3 / 10 : ℚ)⌋ = 0 by rw [Int.floor_eq_iff]; norm_num]

theorem oneFrame_window0 : windowAt oneFrameBuffer (3 / 10) 0 = none := by
  rw [windowAt_eq_boundary oneFrameBuffer (3 / 10) (by norm_num)
      (by rw [oneFrame_totalChunks]; omega),
    boundary_zero, oneFrame_boundary1, if_neg (by decide)]

/-- C6, as stated, fails on the code: with the 1-frame 1 Hz input and
`chunkDurationSeconds = 3/10`, loop index 0 is degenerate (skipped, no
chunk emitted), yet its progress notification "Procesando trozo 1 de 4..."
IS reported, because `onProgress` is called before the two skip checks. -/
theorem degenerate_progress_counterexample :
    windowAt oneFrameBuffer (3 / 10) 0 = none ∧
    totalChunksOf oneFrameBuffer (3 / 10) = 4 ∧
    progressMessage 1 4 ∈ (processAndSplitAudio "a.wav" oneFrameBuffer (3 / 10)).2 := by
  refine ⟨oneFrame_window0, oneFrame_totalChunks, ?_⟩
  simp only [processAndSplitAudio]
  rw [oneFrame_totalChunks]
  decide

/-- C6 (amended): a loop index whose window is degenerate is skipped
without error: no chunk is emitted for it (the chunk count equals the
number of non-degenerate indices, strictly fewer than `totalChunks`), and
the overall operation still succeeds — but its progress notification IS
still reported, since `onProgress` fires before the skip checks. -/
theorem degenerate_window_skipped_but_reported (fileName : String) (b : AudioBuffer)
    (d : ℚ) (i : ℕ) (hi : i < totalChunksOf b d) (hskip : windowAt b d i = none) :
    progressMessage (i + 1) (totalChunksOf b d) ∈ (processAndSplitAudio fileName b d).2 ∧
    ((processAndSplitAudio fileName b d).1).length =
      ((List.range (totalChunksOf b d)).filter fun j => (windowAt b d j).isSome).length ∧
    ((processAndSplitAudio fileName b d).1).length < totalChunksOf b d := by
  refine ⟨?_, ?_, ?_⟩
  · simp only [processAndSplitAudio]
    exact List.mem_cons_of_mem _ (List.mem_map.mpr ⟨i, List.mem_range.mpr hi, rfl⟩)
  · simp only [processAndSplitAudio]
    rw [length_filterMap_comp]
    exact length_filterMap_eq_length_filter _ _
  · simp only [processAndSplitAudio]
    rw [length_filterMap_comp, length_filterMap_eq_length_filter]
    have hlt : ((List.range (totalChunksOf b d)).filter
        fun j => (windowAt b d j).isSome).length < (List.range (totalChunksOf b d)).length := by
      apply List.length_filter_lt_length_iff_exists.mpr
      exact ⟨i, List.mem_range.mpr hi, by rw [hskip]; decide⟩
    rwa [List.length_range] at hlt

/-- Witness for C6 (amended) at the 1-frame 1 Hz buffer, `d = 3/10`,
degenerate index 0. -/
theorem degenerate_window_skipped_but_reported_witness :
    progressMessage (0 + 1) (totalChunksOf oneFrameBuffer (3 / 10)) ∈
      (processAndSplitAudio "a.wav" oneFrameBuffer (3 / 10)).2 ∧
    ((processAndSplitAudio "a.wav" oneFrameBuffer (3 / 10)).1).length =
      ((List.range (totalChunksOf oneFrameBuffer (3 / 10))).filter
        fun j => (windowAt oneFrameBuffer (3 / 10) j).isSome).length ∧
    ((processAndSplitAudio "a.wav" oneFrameBuffer (3 / 10)).1).length <
      totalChunksOf oneFrameBuffer (3 / 10) :=
  degenerate_window_skipped_but_reported "a.wav" oneFrameBuffer (3 / 10) 0
    (by rw [oneFrame_totalChunks]; omega) oneFrame_window0

/-! ### Chunker: filenames (C7) -/

/-- C7: every chunk emitted by `processAndSplitAudio` is named
`<base>_parte_<NN>.wav`, where `<base>` is the input filename with its
extension removed (`originalFileName`) and `<NN>` is the 1-based loop
index zero-padded to 2 digits (`padStart2`). -/
theorem chunk_name_pattern (fileName : String) (b : AudioBuffer) (d : ℚ)
    (ch : EncodedChunk) (hch : ch ∈ (processAndSplitAudio fileName b d).1) :
    ∃ i, i < totalChunksOf b d ∧
      ch.name = originalFileName fileName ++ "_parte_" ++ padStart2 (i + 1) ++ ".wav" := by
  simp only [processAndSplitAudio] at hch
  obtain ⟨i, hi, hsome⟩ := List.mem_filterMap.mp hch
  cases hw : windowAt b d i with
  | none =>
    rw [hw] at hsome
    exact absurd hsome Option.noConfusion
  | some w =>
    rw [hw] at hsome
    simp only [Option.map_some', Option.some.injEq] at hsome
    refine ⟨i, List.mem_range.mp hi, ?_⟩
    rw [← hsome]
    rfl

/-- Witness for C7: the first chunk of the 10-second example. -/
theorem chunk_name_pattern_witness :
    (⟨chunkName "audio.mp3" 1,
        audioBufferToWav (sliceBuffer tenSecondMonoBuffer (0, 24000))⟩ : EncodedChunk) ∈
      (processAndSplitAudio "audio.mp3" tenSecondMonoBuffer 3).1 ∧
    ∃ i, i < totalChunksOf tenSecondMonoBuffer 3 ∧
      (⟨chunkName "audio.mp3" 1,
          audioBufferToWav (sliceBuffer tenSecondMonoBuffer (0, 24000))⟩ :
        EncodedChunk).name =
        originalFileName "audio.mp3" ++ "_parte_" ++ padStart2 (i + 1) ++ ".wav" := by
  have hmem : (⟨chunkName "audio.mp3" 1,
      audioBufferToWav (sliceBuffer tenSecondMonoBuffer (0, 24000))⟩ : EncodedChunk) ∈
      (processAndSplitAudio "audio.mp3" tenSecondMonoBuffer 3).1 := by
    rw [tenSecond_chunks_eval]
    exact List.mem_cons_self _ _
  exact ⟨hmem, chunk_name_pattern "audio.mp3" tenSecondMonoBuffer 3 _ hmem⟩

/-! ### Chunker: empty inputs (C9) -/

theorem zeroChannel_duration : zeroChannelBuffer.duration = 1 := by
  norm_num [AudioBuffer.duration, zeroChannelBuffer]

theorem zeroChannel_totalChunks : totalChunksOf zeroChannelBuffer 1 = 1 := by
  unfold totalChunksOf
  rw [zeroChannel_duration, div_one, Int.ceil_one]
  rfl

theorem zeroChannel_boundary1 : boundary zeroChannelBuffer 1 1 = 44100 := by
  unfold boundary
  rw [zeroChannel_duration]
  norm_num [zeroChannelBuffer, min_def]

theorem zeroChannel_window0 : windowAt zeroChannelBuffer 1 0 = some (0, 44100) := by
  rw [windowAt_eq_boundary zeroChannelBuffer 1 one_pos
      (by rw [zeroChannel_totalChunks]; omega),
    boundary_zero, zeroChannel_boundary1, if_pos (by decide)]

/-- C9, as stated, fails on the code for the zero-channel case: a
zero-channel buffer with one second of frames (44100 frames at 44100 Hz)
has positive duration, so loop index 0 passes both skip guards and
reaches `audioContext.createBuffer(0, 44100, 44100)` at line 217, which
throws `NotSupportedError` (a channel count of zero is outside the
nominal range): the operation raises an error instead of returning an
empty chunk sequence. -/
theorem zero_channels_counterexample :
    zeroChannelBuffer.numberOfChannels = 0 ∧
    zeroChannelBuffer.duration ≠ 0 ∧
    processAndSplitAudioFails zeroChannelBuffer 1 := by
  refine ⟨rfl, ?_, ?_⟩
  · rw [zeroChannel_duration]
    exact one_ne_zero
  · exact ⟨0, by rw [zeroChannel_totalChunks]; omega,
      (0, 44100), zeroChannel_window0, Or.inl rfl⟩

/-- C9 (amended): a `DecodedAudio` with zero total frames (hence zero
duration) yields an empty chunk sequence and no error, for every chunk
duration; a zero-channel input with positive duration instead makes
`createBuffer` throw `NotSupportedError` (see the counterexample), so the
operation fails rather than returning an empty sequence. -/
theorem zero_duration_empty_chunks (fileName : String) (b : AudioBuffer) (d : ℚ)
    (h : b.length = 0) : (processAndSplitAudio fileName b d).1 = [] := by
  have hT : b.duration = 0 := by
    rw [AudioBuffer.duration, h, Nat.cast_zero, zero_div]
  have hN : totalChunksOf b d = 0 := by
    unfold totalChunksOf
    rw [hT, zero_div, Int.ceil_zero]
    rfl
  simp only [processAndSplitAudio]
  rw [hN]
  rfl

/-- Witness for C9 (amended) at a zero-frame buffer. -/
theorem zero_duration_empty_chunks_witness :
    (processAndSplitAudio "x.mp3" emptyFramesBuffer 5).1 = [] :=
  zero_duration_empty_chunks "x.mp3" emptyFramesBuffer 5 rfl

/-! ### Binary64 rounding: the C1 counterexample -/

theorem intLog2_eq {q : ℚ} {e : ℤ} (h0 : 0 < q) (hl : (2 : ℚ) ^ e ≤ q)
    (hh : q < (2 : ℚ) ^ (e + 1)) : Int.log 2 q = e := by
  have h1 : e ≤ Int.log 2 q :=
    (Int.zpow_le_iff_le_log (by norm_num) h0).mp (by exact_mod_cast hl)
  have h2 : Int.log 2 q < e + 1 :=
    (Int.lt_zpow_iff_log_lt (by norm_num) h0).mp (by exact_mod_cast hh)
  omega

theorem rne_eq_of_lt_half (q : ℚ) (n : ℤ) (h1 : (n : ℚ) ≤ q)
    (h2 : q < (n : ℚ) + 1 / 2) : rne q = n := by
  have hfl : ⌊q⌋ = n := by
    rw [Int.floor_eq_iff]
    refine ⟨h1, ?_⟩
    linarith
  unfold rne
  rw [hfl, if_pos (by linarith)]

theorem fl_zero : fl 0 = 0 := by
  unfold fl
  norm_num

theorem fl_eq_of_bounds (q : ℚ) (e : ℤ) (k : ℕ) (m : ℤ) (h0 : 0 < q)
    (hk : e = 52 - (k : ℤ)) (hlow : (2 : ℚ) ^ e ≤ q) (hhigh : q < (2 : ℚ) ^ (e + 1))
    (hm : rne (q * (2 : ℚ) ^ k) = m) :
    fl q = (m : ℚ) / (2 : ℚ) ^ k := by
  unfold fl flPos
  rw [if_neg (not_lt.mpr h0.le), if_neg h0.ne', intLog2_eq h0 hlow hhigh,
    show (52 : ℤ) - e = (k : ℤ) by omega, zpow_natCast, hm,
    show e - 52 = -(k : ℤ) by omega, zpow_neg, zpow_natCast, div_eq_mul_inv]

theorem floatEdge_durationFP :
    durationFP floatEdgeBuffer = 6382665298426517 / 281474976710656 := by
  unfold durationFP
  rw [show ((floatEdgeBuffer.length : ℚ) / (floatEdgeBuffer.sampleRate : ℚ)) =
    1000002 / 44100 by norm_num [floatEdgeBuffer]]
  have h := fl_eq_of_bounds (1000002 / 44100 : ℚ) 4 48 6382665298426517 (by norm_num)
    (by norm_num) (by norm_num) (by norm_num)
    (by rw [show (1000002 / 44100 : ℚ) * (2 : ℚ) ^ (48 : ℕ) =
          23456294971717451776 / 3675 by norm_num]
        exact rne_eq_of_lt_half _ _ (by norm_num) (by norm_num))
  rw [h]
  norm_num

theorem floatEdge_totalChunksFP : totalChunksFP floatEdgeBuffer 180 = 1 := by
  unfold totalChunksFP
  rw [floatEdge_durationFP,
    show (6382665298426517 / 281474976710656 : ℚ) / 180 =
      6382665298426517 / 50665495807918080 by norm_num]
  have h := fl_eq_of_bounds (6382665298426517 / 50665495807918080 : ℚ) (-3) 55
    4538784212214412 (by norm_num) (by norm_num) (by norm_num) (by norm_num)
    (by rw [show (6382665298426517 / 50665495807918080 : ℚ) * (2 : ℚ) ^ (55 : ℕ) =
          204245289549648544 / 45 by norm_num]
        exact rne_eq_of_lt_half _ _ (by norm_num) (by norm_num))
  rw [h]
  push_cast
  rw [show ⌈(4538784212214412 : ℚ) / (2 : ℚ) ^ (55 : ℕ)⌉ = 1 by
    rw [Int.ceil_eq_iff]
    norm_num]
  rfl

theorem floatEdge_window0 : windowAtFP floatEdgeBuffer 180 0 = some (0, 1000001) := by
  have hfl0 : fl (((0 : ℕ) : ℚ) * 180) = 0 := by
    rw [show (((0 : ℕ) : ℚ) * 180) = 0 by norm_num]
    exact fl_zero
  have hfl180 : fl ((0 : ℚ) + 180) = 180 := by
    rw [show ((0 : ℚ) + 180) = (180 : ℚ) by norm_num]
    have h := fl_eq_of_bounds (180 : ℚ) 7 45 6333186975989760 (by norm_num) (by norm_num)
      (by norm_num) (by norm_num)
      (by rw [show (180 : ℚ) * (2 : ℚ) ^ (45 : ℕ) = 6333186975989760 by norm_num]
          exact rne_eq_of_lt_half _ _ (by norm_num) (by norm_num))
    rw [h]
    norm_num
  have hflp : fl ((6382665298426517 / 281474976710656 : ℚ) * 44100) =
      8589951771869183 / 8589934592 := by
    rw [show (6382665298426517 / 281474976710656 : ℚ) * 44100 =
      281475539660609399700 / 281474976710656 by norm_num]
    have h := fl_eq_of_bounds (281475539660609399700 / 281474976710656 : ℚ) 19 33
      8589951771869183 (by norm_num) (by norm_num) (by norm_num) (by norm_num)
      (by rw [show (281475539660609399700 / 281474976710656 : ℚ) * (2 : ℚ) ^ (33 : ℕ) =
            70368884915152349925 / 8192 by norm_num]
          exact rne_eq_of_lt_half _ _ (by norm_num) (by norm_num))
    rw [h]
    norm_num
  simp only [windowAtFP]
  rw [hfl0, hfl180, floatEdge_durationFP,
    min_eq_right (by norm_num : (6382665298426517 / 281474976710656 : ℚ) ≤ 180),
    if_neg (by norm_num : ¬((6382665298426517 / 281474976710656 : ℚ) ≤ 0)),
    show ((0 : ℚ) * (floatEdgeBuffer.sampleRate : ℚ)) = 0 by norm_num,
    fl_zero, Int.floor_zero,
    show ((6382665298426517 / 281474976710656 : ℚ) * (floatEdgeBuffer.sampleRate : ℚ)) =
      (6382665298426517 / 281474976710656 : ℚ) * 44100 by norm_num [floatEdgeBuffer],
    hflp,
    show ⌊(8589951771869183 : ℚ) / 8589934592⌋ = 1000001 by
      rw [Int.floor_eq_iff]
      norm_num,
    if_neg (by decide : ¬((1000001 : ℤ) - 0 ≤ 0))]

/-- C1, as stated, fails on the code's binary64 arithmetic: for an
ordinary mono 44100 Hz input of 1000002 frames (about 22.7 s) with
`chunkDurationSeconds = 180`, the double `duration * sampleRate` rounds
to just below 1000002, the single emitted window is `(0, 1000001)`, and
the union of the emitted windows is `[0, 1000001)`, not `[0, L)` — the
last `endFrame` is `L - 1`, not `L`. `windowAtFP` is the loop's window
computation with the source's binary64 rounding made explicit. -/
theorem float_rounding_breaks_partition :
    emittedWindowsFP floatEdgeBuffer 180 = [(0, 1000001)] ∧
    floatEdgeBuffer.length = 1000002 ∧
    (∀ w, (emittedWindowsFP floatEdgeBuffer 180).getLast? = some w →
      w.2 ≠ (floatEdgeBuffer.length : ℤ)) := by
  have hlist : emittedWindowsFP floatEdgeBuffer 180 = [(0, 1000001)] := by
    unfold emittedWindowsFP
    rw [floatEdge_totalChunksFP, show List.range 1 = [0] from rfl]
    simp [List.filterMap_cons, floatEdge_window0]
  refine ⟨hlist, rfl, ?_⟩
  intro w hw
  rw [hlist] at hw
  simp only [List.getLast?_singleton, Option.some.injEq] at hw
  rw [← hw]
  decide

end AudioSplitterModel
